import Mathlib

/-!
Verification of the beanbot transactional ledger engine against its
natural-language specification.  Each section shallowly embeds one Python
module of the repository; theorems at the end settle the spec claims.

Modelling conventions:
* Python `dict`s (insertion ordered) become association lists with
  order-preserving update.
* Python `raise` / failing `assert` becomes `Except.error` / `Option.none`.
* External collaborators (the beancount printer and `hashlib.sha256` behind
  `stable_hash`, `secrets.token_hex` behind the ID generator) are passed in
  as explicit function arguments, so theorems quantify over them.
-/

namespace Beanbot

/-!
## Text patch engine — `src/beanbot/ledger/text_editor.py`

`TextEditor` reads the file into `lines` and appends one sentinel empty
string (`_read_file`), so `_file_n_lines = original line count + 1`.
`ChangeSet.__post_init__` forces insert positions to be a single int,
delete/replace positions to be an `(begin, end)` pair and append positions
to be absent; the inductive `Change` encodes exactly those well-formed
values.
-/

namespace TextEditor

/-- `sys.maxsize`, used by the source as a stand-in for infinity. -/
def INF : Int := 9223372036854775807

inductive Change where
  | insert (pos : Int) (content : List String)
  | delete (first last : Int)
  | replace (first last : Int) (content : List String)
  | append (content : List String)
deriving DecidableEq

/-- `TextEditor._get_position_tuple`: inserts become a zero-width pair,
appends become `(INF, INF)`, and negative coordinates are shifted by
`_file_n_lines` (`n`, the line count including the sentinel line). -/
def posT (n : Int) : Change → Int × Int
  | .insert p _ =>
      ((if p < 0 then p + n else p), (if p < 0 then p + n else p))
  | .delete b e => ((if b < 0 then b + n else b), (if e < 0 then e + n else e))
  | .replace b e _ =>
      ((if b < 0 then b + n else b), (if e < 0 then e + n else e))
  | .append _ => (INF, INF)

/-- Sort key order used by `_sort_changes_by_position`: Python compares the
position tuples lexicographically. -/
def posLe (n : Int) (c d : Change) : Prop :=
  (posT n c).1 < (posT n d).1 ∨
    ((posT n c).1 = (posT n d).1 ∧ (posT n c).2 ≤ (posT n d).2)

instance (n : Int) : DecidableRel (posLe n) := fun c d =>
  inferInstanceAs (Decidable ((posT n c).1 < (posT n d).1 ∨
    ((posT n c).1 = (posT n d).1 ∧ (posT n c).2 ≤ (posT n d).2)))

instance (n : Int) : IsTotal Change (posLe n) where
  total c d := by
    unfold posLe
    rcases lt_trichotomy (posT n c).1 (posT n d).1 with h | h | h
    · exact Or.inl (Or.inl h)
    · rcases le_total (posT n c).2 (posT n d).2 with h2 | h2
      · exact Or.inl (Or.inr ⟨h, h2⟩)
      · exact Or.inr (Or.inr ⟨h.symm, h2⟩)
    · exact Or.inr (Or.inl h)

instance (n : Int) : IsTrans Change (posLe n) where
  trans c d e hcd hde := by
    unfold posLe at hcd hde ⊢
    rcases hcd with h1 | ⟨h1, h1e⟩ <;> rcases hde with h2 | ⟨h2, h2e⟩
    · exact Or.inl (h1.trans h2)
    · exact Or.inl (h2 ▸ h1)
    · exact Or.inl (h1 ▸ h2)
    · exact Or.inr ⟨h1.trans h2, h1e.trans h2e⟩

/-- `TextEditor._sort_changes_by_position` (Python `list.sort` with the
position-tuple key; insertion sort is likewise a stable sort). -/
def sortChanges (n : Int) (cs : List Change) : List Change :=
  List.insertionSort (posLe n) cs

/-- One step of `_check_changes_non_overlapping`: the two assertions run
against an adjacent pair of the sorted change list. -/
def adjOk (n : Int) (c d : Change) : Bool :=
  let b1 := (posT n c).1
  let e1 := (posT n c).2
  let b2 := (posT n d).1
  let e2 := (posT n d).2
  decide (¬(b1 ≤ b2 ∧ b2 < e1)) &&
    (if b1 = e1 then decide (¬(b2 = e2 ∧ e2 = b1)) else true)

/-- `TextEditor._check_changes_non_overlapping`: assert both conditions for
every adjacent pair; `false` models the `AssertionError`. -/
def checkNonOverlapping (n : Int) : List Change → Bool
  | c :: d :: t => adjOk n c d && checkNonOverlapping n (d :: t)
  | _ => true

/-- `TextEditor._check_range_validity`: every resolved position must be the
append sentinel `(INF, INF)` or satisfy `0 <= begin <= end < line_count`,
where the source passes `line_count = len(self._lines)` (original lines
plus the sentinel line). -/
def checkRangeValidity (n lineCount : Int) (cs : List Change) : Bool :=
  cs.all fun c =>
    let b := (posT n c).1
    let e := (posT n c).2
    (b == INF && e == INF) || (0 ≤ b && b ≤ e && e < lineCount)

/-- Content payload of a change (`changes[i].content`).  A delete carries
`None`; the streaming loop only reads `content` for a delete if its
position was forged to the exact `(INF, INF)` sentinel, where CPython would
raise `TypeError`; that corner is unreachable from the ledger and no
theorem below depends on it. -/
def contentOf : Change → List String
  | .insert _ cont => cont
  | .delete _ _ => []
  | .replace _ _ cont => cont
  | .append cont => cont

/-- The streaming loop of `save_changes` (lines 182–229): `lines` is the
original file content plus the sentinel `""`; `li` is `line_idx`; the head
of the change list is `self._changes[change_idx]`.  Mirrors the `while
line_idx < len(lines) - 1` guard, the append (`INF`) early exit, the
catch-up slice `lines[line_idx:change_begin]`, and the per-type dispatch. -/
def applyChanges (n : Int) (lines : List String) :
    List Change → Int → List String
  | [], li =>
      if li < (lines.length : Int) - 1 then lines.drop li.toNat else []
  | c :: rest, li =>
      if li < (lines.length : Int) - 1 then
        let b := (posT n c).1
        let e := (posT n c).2
        if b == INF then lines.drop li.toNat ++ contentOf c
        else
          let pre :=
            if li < b then (lines.drop li.toNat).take (b - li).toNat else []
          let li2 := if li < b then b else li
          if li2 < (lines.length : Int) - 1 then
            match c with
            | .insert _ cont => pre ++ cont ++ applyChanges n lines rest li2
            | .delete _ _ => pre ++ applyChanges n lines rest e
            | .replace _ _ cont => pre ++ cont ++ applyChanges n lines rest e
            | .append _ => pre ++ applyChanges n lines rest li2
          else pre
      else []

/-- `TextEditor.save_changes`: sort, assert non-overlap, assert range
validity, then stream once and write.  `Except.error` models the
`AssertionError` raised before the output file is opened; `Except.ok out`
is the full new content handed to `file.writelines`. -/
def saveChanges (orig : List String) (cs : List Change) :
    Except String (List String) :=
  let lines := orig ++ [""]
  let n : Int := (orig.length : Int) + 1
  let sorted := sortChanges n cs
  if checkNonOverlapping n sorted then
    if checkRangeValidity n ((orig.length : Int) + 1) sorted then
      .ok (applyChanges n lines sorted 0)
    else .error "invalid range"
  else .error "overlapping changes"

/-- Contents of the target file after `save_changes` returns or raises:
the write happens only on the success path, so a raise leaves the file
with its previous contents. -/
def fileAfter (orig : List String) (cs : List Change) : List String :=
  match saveChanges orig cs with
  | .ok out => out
  | .error _ => orig

/-- The editor's line count for a file read as `orig`:
`len(self._lines)`, i.e. the original lines plus the sentinel line. -/
abbrev lineCountC (orig : List String) : Int := (orig.length : Int) + 1

/-- A change's resolved `(begin, end)` pair over the file `orig`. -/
abbrev resolvedPos (orig : List String) (c : Change) : Int × Int :=
  posT (lineCountC orig) c

/-- The two half-open ranges have a common line
(`max begins < min ends`, spelled without `max`/`min`). -/
abbrev rangesOverlap (p q : Int × Int) : Prop :=
  p.1 < q.2 ∧ q.1 < p.2 ∧ p.1 < p.2 ∧ q.1 < q.2

/-- Both positions are zero-width and sit on the same line. -/
abbrev zwSamePos (p q : Int × Int) : Prop :=
  p.1 = p.2 ∧ q.1 = q.2 ∧ p.1 = q.1

def isInsertC : Change → Bool
  | .insert _ _ => true
  | _ => false

def isAppendC : Change → Bool
  | .append _ => true
  | _ => false

/-- The resolved position lies (partly) outside `[0, line_count)`. -/
abbrev outOfBoundsPos (orig : List String) (c : Change) : Prop :=
  (resolvedPos orig c).1 < 0 ∨ lineCountC orig ≤ (resolvedPos orig c).1 ∨
    (resolvedPos orig c).2 < 0 ∨ lineCountC orig ≤ (resolvedPos orig c).2

/-- Claim C2's validation-failure condition, as the claim states it: two
changes whose resolved ranges overlap, two zero-width inserts at the same
line, or a non-Append resolved position outside `[0, line_count)`. -/
abbrev SpecValidationFailure (orig : List String) (cs : List Change) :
    Prop :=
  (∃ i j : Fin cs.length, (i : Nat) < (j : Nat) ∧
      rangesOverlap (resolvedPos orig (cs.get i))
        (resolvedPos orig (cs.get j))) ∨
  (∃ i j : Fin cs.length, (i : Nat) < (j : Nat) ∧
      isInsertC (cs.get i) = true ∧ isInsertC (cs.get j) = true ∧
      (resolvedPos orig (cs.get i)).1 = (resolvedPos orig (cs.get j)).1) ∨
  (∃ c ∈ cs, isAppendC c = false ∧ outOfBoundsPos orig c)

/-- The amended failure condition: as the claim's, except that an
out-of-bounds non-Append position is exempt when it is forged to the
exact append sentinel `(INF, INF)` — `_check_range_validity` accepts that
pair unconditionally and the editor then treats the change as an append. -/
abbrev SpecValidationFailureAmended (orig : List String)
    (cs : List Change) : Prop :=
  (∃ i j : Fin cs.length, (i : Nat) < (j : Nat) ∧
      rangesOverlap (resolvedPos orig (cs.get i))
        (resolvedPos orig (cs.get j))) ∨
  (∃ i j : Fin cs.length, (i : Nat) < (j : Nat) ∧
      isInsertC (cs.get i) = true ∧ isInsertC (cs.get j) = true ∧
      (resolvedPos orig (cs.get i)).1 = (resolvedPos orig (cs.get j)).1) ∨
  (∃ c ∈ cs, isAppendC c = false ∧ outOfBoundsPos orig c ∧
      resolvedPos orig c ≠ (INF, INF))

/-- No conflict between two changes under the code's overlap and
double-insertion assertions. -/
def noConflict (n : Int) (c d : Change) : Prop :=
  ¬ rangesOverlap (posT n c) (posT n d) ∧
    ¬ zwSamePos (posT n c) (posT n d)

end TextEditor

/-!
## ID generator — `src/beanbot/utils/id_generator.py`

`secrets.token_hex` is modelled as an explicit stream `draws : Nat → String`
(the value of the k-th call).  The issued-ID set is a list.  The mutex only
serialises access and has no sequential effect.
-/

namespace IDGen

/-- Collision test from the loop condition:
`id_val is None or id_val in self._generated_ids`. -/
def collides (issued : List String) : Option String → Bool
  | none => true
  | some v => issued.contains v

/-- The `while n_attempt < self._max_attempts and (...)` loop of
`IDGenerator.generate`.  `fuel = max_attempts - n_attempt`, so the guard
`n_attempt < max_attempts` is exactly `fuel > 0`; returns the final
`(n_attempt, id_val)` pair. -/
def genLoop (issued : List String) (draws : Nat → String) :
    Nat → Nat → Option String → Nat × Option String
  | 0, n, idVal => (n, idVal)
  | fuel + 1, n, idVal =>
      if collides issued idVal then
        genLoop issued draws fuel (n + 1) (some (draws n))
      else (n, idVal)

/-- `IDGenerator.generate`: run the retry loop, then
`if n_attempt == self._max_attempts: raise RuntimeError(...)`; otherwise
record the ID as issued and return it.  The `none` branch mirrors the
`assert isinstance(id_val, str)` (unreachable when the loop exits early). -/
def generate (issued : List String) (draws : Nat → String)
    (maxAttempts : Nat) : Except String (String × List String) :=
  let r := genLoop issued draws maxAttempts 0 none
  if r.1 = maxAttempts then
    .error "Failed to generate unique ID after maximum attempts"
  else
    match r.2 with
    | some v => .ok (v, issued ++ [v])
    | none => .error "generated ID must be a string"

end IDGen

/-!
## Ledger — `src/beanbot/ledger/ledger.py`

A beancount `Directive` is modelled by the pieces the ledger reads: its
printable content, the `filename`/`lineno` metadata, and the `bbid`
metadata slot written by collision handling.  `stable_hash` (printer +
sha256, both external collaborators) is a function argument `h`; it sees
the content and the `bbid` slot (the printer emits `bbid` metadata but not
`filename`/`lineno`).  `random.choices` inside `_get_entry_id` is a salt
stream, passed as a list (finite fuel for the unbounded Python loop).
-/

namespace Ledger

structure Entry where
  content : String
  filename : String
  lineno : Nat
  bbid : Option String
deriving DecidableEq

/-- `entry.meta[HASH_ATTR] = ...` -/
def setBbid (e : Entry) (s : String) : Entry := { e with bbid := some s }

/-- Ordered-dict primitives (Python `dict` keyed by entry ID). -/
def dictGet (m : List (String × Entry)) (k : String) : Option Entry :=
  (m.find? (fun p => p.1 == k)).map (fun p => p.2)

def dictHas (m : List (String × Entry)) (k : String) : Bool :=
  (dictGet m k).isSome

/-- `m[k] = v`: update in place if present, else append (insertion order). -/
def dictSet (m : List (String × Entry)) (k : String) (v : Entry) :
    List (String × Entry) :=
  if dictHas m k then m.map (fun p => if p.1 == k then (k, v) else p)
  else m ++ [(k, v)]

/-- `del m[k]` / `m.pop(k)`. -/
def dictDel (m : List (String × Entry)) (k : String) :
    List (String × Entry) :=
  m.filter (fun p => !(p.1 == k))

/-- The four staging maps (`_existing_entries`, `_new_entries`,
`_changed_entries`, `_deleted_entries`).  `_options_map` and
`_entry_lineno_ranges` are not read by any settled claim through the
state; line-range extraction is modelled separately below. -/
structure LedgerState where
  existing : List (String × Entry)
  newE : List (String × Entry)
  changed : List (String × Entry)
  deleted : List (String × Entry)
deriving DecidableEq

def emptyState : LedgerState := ⟨[], [], [], []⟩

/-- `Ledger.dirty`. -/
def dirty (st : LedgerState) : Bool :=
  !st.newE.isEmpty || !st.changed.isEmpty || !st.deleted.isEmpty

/-- The `while hash_value in self._existing_entries` loop of
`_get_entry_id(..., handle_collision=True)`: repeatedly overwrite the
`bbid` metadata with the next random salt and re-hash.  Returns the
possibly-mutated entry (Python mutates it in place), the hash, and the
`modified` flag; `none` models salt-stream exhaustion (the Python loop
would keep drawing). -/
def resolveCollision (h : Entry → String) (existingKeys : List String) :
    List String → Entry → Option (Entry × String × Bool)
  | salts, e =>
      if existingKeys.contains (h e) then
        match salts with
        | [] => none
        | s :: rest =>
            match resolveCollision h existingKeys rest (setBbid e s) with
            | none => none
            | some (e2, id2, _) => some (e2, id2, true)
      else some (e, h e, false)

/-- `Ledger.remove` (three independent `if`s, then a warning — not an
exception — when nothing matched). -/
def removeEntry (st : LedgerState) (id : String) : Bool × LedgerState :=
  let r1 : Bool × LedgerState :=
    match dictGet st.existing id with
    | some e =>
        (true, { st with existing := dictDel st.existing id,
                         deleted := dictSet st.deleted id e })
    | none => (false, st)
  let r2 : Bool × LedgerState :=
    if dictHas r1.2.newE id then
      (true, { r1.2 with newE := dictDel r1.2.newE id })
    else (false, r1.2)
  let r3 : Bool × LedgerState :=
    if dictHas r2.2.changed id then
      (true, { r2.2 with changed := dictDel r2.2.changed id })
    else (false, r2.2)
  (r1.1 || r2.1 || r3.1, r3.2)

/-- `Ledger.replace`: warn and return `None` for an unknown ID; otherwise
stage the new entry in `_changed_entries` under the old ID and return the
ID computed for the new entry with collision handling (which may mutate
the staged entry's `bbid`, visible through aliasing).  The outer `none`
models salt exhaustion inside collision handling. -/
def replaceEntry (h : Entry → String) (salts : List String)
    (st : LedgerState) (id : String) (eNew : Entry) :
    Option (Option String × LedgerState) :=
  if !dictHas st.existing id then some (none, st)
  else
    match resolveCollision h (st.existing.map (fun p => p.1)) salts eNew with
    | none => none
    | some (e2, idNew, _) =>
        some (some idNew, { st with changed := dictSet st.changed id e2 })

/-- The `_changed_entries` folding step of `Ledger.save` (lines 120–125):
re-derive the ID of each replacement entry with `_get_entry_id` (no
collision handling, i.e. a bare hash), assert it is not already a key of
the updated map, store the entry under the new ID and delete the old ID.
`none` models the failing assert. -/
def foldChanged (h : Entry → String) :
    List (String × Entry) → List (String × Entry) →
    Option (List (String × Entry))
  | [], upd => some upd
  | (idOld, e) :: rest, upd =>
      let idNew := h e
      if dictHas upd idNew then none
      else foldChanged h rest (dictDel (dictSet upd idNew e) idOld)

/-- The state-update portion of `Ledger.save`: no-op when clean, else fold
`new` into `existing`, re-key every `changed` entry, drop every `deleted`
entry, and clear the staging maps.  The preceding per-file
`_get_changesets_by_file` / `TextEditor` step only writes files and does
not touch the four maps, so it is elided here. -/
def saveState (h : Entry → String) (st : LedgerState) :
    Option LedgerState :=
  if !dirty st then some st
  else
    let upd := st.newE.foldl (fun m p => dictSet m p.1 p.2) st.existing
    match foldChanged h st.changed upd with
    | none => none
    | some upd2 =>
        let upd3 := st.deleted.foldl (fun m p => dictDel m p.1) upd2
        some ⟨upd3, [], [], []⟩

/-- The result of `beancount.load_file`: the parsed entries and the parse
error list (the options map is not read by any settled claim). -/
structure ParseResult where
  entries : List Entry
  errors : List String
deriving DecidableEq

/-- The per-entry loop of `Ledger.load` (lines 246–264): hash without
collision handling; on a hash collision, deep-copy, re-hash the copy with
collision handling, assert it was modified, store the original entry under
the new ID and the modified copy in `_changed_entries`; in all cases
execute `self._existing_entries[entry_id] = entry`. -/
def loadEntries (h : Entry → String) (salts : List String) :
    List Entry → LedgerState → Option LedgerState
  | [], st => some st
  | entry :: rest, st =>
      let id := h entry
      if dictHas st.existing id then
        match resolveCollision h (st.existing.map (fun p => p.1)) salts
            entry with
        | none => none
        | some (eMod, idMod, modified) =>
            if modified then
              let st2 : LedgerState :=
                { st with existing := dictSet st.existing idMod entry,
                          changed := dictSet st.changed idMod eMod }
              loadEntries h salts rest
                { st2 with existing := dictSet st2.existing id entry }
            else none
      else
        loadEntries h salts rest
          { st with existing := dictSet st.existing id entry }

/-- `Ledger.load`: `if errors: logger.error(...)` — the error list is only
logged (first component) — then the state is rebuilt from the entries.
`none` in the second component models a failing assert inside the entry
loop, never the parse errors. -/
def loadLedger (h : Entry → String) (salts : List String)
    (pr : ParseResult) : List String × Option LedgerState :=
  let log :=
    if pr.errors.isEmpty then []
    else ["Errors occurred while loading the ledger"]
  (log, loadEntries h salts pr.entries emptyState)

/-- Concrete instantiation of `stable_hash` for witnesses: injective in the
printed content and in the `bbid` metadata slot, like the sha256 of the
printed entry (which renders `bbid` but not `filename`/`lineno`). -/
def hashModel (e : Entry) : String :=
  "#" ++ e.content ++ ";" ++ e.bbid.getD ""

/-!
### Line-range extraction — `Ledger._extract_lineno_ranges`

For one file: collect the (1-indexed) `lineno` of every existing entry,
sort; `next_linenos` maps each lineno to its successor and the last one to
`0`; each entry's stored range is `(lineno - 1, next - 1)`, so the last
entry gets the end-of-file sentinel `-1`.  Distinct directives start on
distinct lines, which makes the successor dict a plain zip of the sorted
list with its tail.  `rangesOfSorted` lists the ranges in sorted-lineno
order, i.e. in the order the directives appear in the file.
-/

def rangesOfSorted : List Nat → List (Int × Int)
  | [] => []
  | [l] => [((l : Int) - 1, -1)]
  | l :: l2 :: rest =>
      ((l : Int) - 1, (l2 : Int) - 1) :: rangesOfSorted (l2 :: rest)

def extractLinenoRanges (linenos : List Nat) : List (Int × Int) :=
  rangesOfSorted (List.insertionSort (fun a b => a ≤ b) linenos)

/-- Resolution of a stored range by the text editor
(`_get_position_tuple`): negative coordinates are shifted by
`_file_n_lines = count + 1` (the file's `count` lines plus the sentinel
line), so the `-1` sentinel becomes `count`. -/
def resolveRange (count : Nat) (r : Int × Int) : Int × Int :=
  ((if r.1 < 0 then r.1 + ((count : Int) + 1) else r.1),
   (if r.2 < 0 then r.2 + ((count : Int) + 1) else r.2))

/-- The resolved line ranges of one file's existing entries, in file
order. -/
def resolvedRanges (count : Nat) (linenos : List Nat) : List (Int × Int) :=
  (extractLinenoRanges linenos).map (resolveRange count)

/-- Membership of line `x` in some resolved half-open range. -/
def coveredBy (rs : List (Int × Int)) (x : Int) : Prop :=
  ∃ r ∈ rs, r.1 ≤ x ∧ x < r.2

instance (rs : List (Int × Int)) (x : Int) : Decidable (coveredBy rs x) :=
  inferInstanceAs (Decidable (∃ r ∈ rs, r.1 ≤ x ∧ x < r.2))

end Ledger

/-!
## Record model overlay — `src/beanbot/data/directive.py`

`_from_immutable` / `_to_immutable` copy a beancount named tuple field by
field, converting registered nested types (postings) and mapping over
lists; `recordclass` mutable twins have the same fields.  Two
representative directive kinds are embedded — `Transaction`, which
exercises the recursive list conversion through its postings, and `Open`;
the remaining kinds are converted by exactly the same field-copy scheme.
Metadata is `Option` because a directive built with `meta=None` is
representable and `MutableDirective.to_immutable` tests `meta is None`
explicitly.
-/

namespace DirModel

structure Posting where
  account : String
  units : Option (Int × String)
  meta : Option (List (String × String))
deriving DecidableEq

structure Txn where
  meta : Option (List (String × String))
  date : Nat
  flag : String
  payee : Option String
  narration : Option String
  postings : List Posting
deriving DecidableEq

structure OpenDir where
  meta : Option (List (String × String))
  date : Nat
  account : String
deriving DecidableEq

inductive Directive where
  | txn (t : Txn)
  | openDir (o : OpenDir)
deriving DecidableEq

/-- Mutable twin of `Posting` (`_MutablePostingImpl`). -/
structure MutPosting where
  account : String
  units : Option (Int × String)
  meta : Option (List (String × String))
deriving DecidableEq

/-- Mutable twin of `Transaction` (`_MutableTransactionImpl`). -/
structure MutTxn where
  meta : Option (List (String × String))
  date : Nat
  flag : String
  payee : Option String
  narration : Option String
  postings : List MutPosting
deriving DecidableEq

/-- Mutable twin of `Open` (`_MutableOpenImpl`). -/
structure MutOpen where
  meta : Option (List (String × String))
  date : Nat
  account : String
deriving DecidableEq

inductive MutDirective where
  | txn (t : MutTxn)
  | openDir (o : MutOpen)
deriving DecidableEq

/-- `_from_immutable` on a posting: every field is copied; no field of a
posting has a registered directive type. -/
def fromImmutableP (p : Posting) : MutPosting :=
  ⟨p.account, p.units, p.meta⟩

def toImmutableP (p : MutPosting) : Posting :=
  ⟨p.account, p.units, p.meta⟩

/-- `_from_immutable`: fields copied verbatim, list fields mapped with the
conversion of their registered element type. -/
def fromImmutable : Directive → MutDirective
  | .txn t =>
      .txn ⟨t.meta, t.date, t.flag, t.payee, t.narration,
        t.postings.map fromImmutableP⟩
  | .openDir o => .openDir ⟨o.meta, o.date, o.account⟩

/-- `_to_immutable`. -/
def toImmutable : MutDirective → Directive
  | .txn t =>
      .txn ⟨t.meta, t.date, t.flag, t.payee, t.narration,
        t.postings.map toImmutableP⟩
  | .openDir o => .openDir ⟨o.meta, o.date, o.account⟩

def getMeta : Directive → Option (List (String × String))
  | .txn t => t.meta
  | .openDir o => o.meta

def withMeta : Directive → Option (List (String × String)) → Directive
  | .txn t, m => .txn { t with meta := m }
  | .openDir o, m => .openDir { o with meta := m }

/-- Ordered-dict update used for `meta_copy[METADATA_BBID] = self._id`. -/
def metaSet (m : List (String × String)) (k v : String) :
    List (String × String) :=
  if (m.find? (fun p => p.1 == k)).isSome then
    m.map (fun p => if p.1 == k then (k, v) else p)
  else m ++ [(k, v)]

/-- The wrapper state of `MutableDirective`: the converted mutable twin,
the deep-copied original, and the optional stable ID. -/
structure MutableDirective where
  mutableDirective : MutDirective
  originalDirective : Directive
  id : Option String
deriving DecidableEq

/-- `to_mutable(d)` (dispatch on the directive kind, no ID assigned). -/
def to_mutable (d : Directive) : MutableDirective :=
  ⟨fromImmutable d, d, none⟩

/-- `MutableDirective.to_immutable`: convert back, replace a `None`
metadata map by an empty dict, and write the `bbid` metadata only when an
ID was assigned. -/
def MutableDirective.to_immutable (m : MutableDirective) : Directive :=
  let u := toImmutable m.mutableDirective
  let u := if getMeta u = none then withMeta u (some []) else u
  match m.id with
  | none => u
  | some i => withMeta u (some (metaSet ((getMeta u).getD []) "bbid" i))

end DirModel

/-!
## Similar-entry deduplication — `src/beanbot/ops/dedup.py`

`SimilarEntryDeduplicator._comparator` restricted to a pair of
transactions (the claim's case; for differing kinds the comparator returns
`False` at the type check).  Amount numbers (`Decimal`) are embedded as
`Int`; `posting.units` is an `(number, currency)` pair.
-/

namespace Dedup

structure DPosting where
  account : String
  units : Int × String
deriving DecidableEq

structure DTxn where
  date : Nat
  payee : Option String
  narration : Option String
  postings : List DPosting
deriving DecidableEq

/-- Code-point lexicographic string order — the order Python's `sorted`
applies to the account keys. -/
def strLe : List Char → List Char → Bool
  | [], _ => true
  | _ :: _, [] => false
  | a :: as, b :: bs =>
      if a.val < b.val then true
      else if b.val < a.val then false
      else strLe as bs

/-- `sorted(postings, key=lambda x: x.account)` — Python's stable sort;
insertion sort is likewise stable. -/
def sortPostings (ps : List DPosting) : List DPosting :=
  List.insertionSort (fun p q => strLe p.account.data q.account.data = true)
    ps

/-- `_compare_optional_strings`: `None` normalises to `""`. -/
def optStrEq (a b : Option String) : Bool :=
  a.getD "" == b.getD ""

/-- `SimilarEntryDeduplicator._compare_postings`, line for line: sort both
sides by account, compare the account lists (membership only when the
imported side has a single posting), then compare the amount lists (the
amount at the first index of the imported account when the imported side
has a single posting). -/
def comparePostings (ps ips : List DPosting) : Bool :=
  let ps2 := sortPostings ps
  let ips2 := sortPostings ips
  let accounts := ps2.map (fun p => p.account)
  let accountsImported := ips2.map (fun p => p.account)
  if accountsImported.length == 1 &&
      !(accounts.contains (accountsImported.headD "")) then false
  else if accountsImported.length > 1 &&
      !(accountsImported == accounts) then false
  else
    let amounts := ps2.map (fun p => p.units)
    let amountsImported := ips2.map (fun p => p.units)
    if amountsImported.length == 1 &&
        !((amounts.getD (accounts.indexOf (accountsImported.headD ""))
            (0, "")) == amountsImported.headD (0, "")) then false
    else if amountsImported.length > 1 &&
        !(amounts == amountsImported) then false
    else true

/-- `SimilarEntryDeduplicator._comparator` on two transactions: the
`FIELDS_COMPARISON[Transaction]` loop over
`date`, `payee`, `narration`, `postings` with early return. -/
def similarComparator (t it : DTxn) : Bool :=
  t.date == it.date && optStrEq t.payee it.payee &&
    optStrEq t.narration it.narration &&
    comparePostings t.postings it.postings

/-- The claim's comparison: the `(account, amount)` lists of both sides
after sorting each by account. -/
def sortedPairs (t : DTxn) : List (String × (Int × String)) :=
  (sortPostings t.postings).map (fun p => (p.account, p.units))

/-- Units of the first posting with the given account, in account-sorted
order (what `amounts[accounts.index(a)]` reads). -/
def firstUnitsAt (t : DTxn) (a : String) : Option (Int × String) :=
  ((sortPostings t.postings).find? (fun p => p.account == a)).map
    (fun p => p.units)

/-- The posting comparison that the source actually implements, phrased
extensionally (the nearby statement for claim C9): with two or more
imported postings the sorted `(account, amount)` lists must be equal; with
exactly one imported posting it suffices that the existing transaction's
first posting with that account (in account-sorted order) carries the same
amount; with no imported postings the check is vacuous. -/
def postingsMatchSpec (t it : DTxn) : Bool :=
  match sortPostings it.postings with
  | [] => true
  | [ip] => firstUnitsAt t ip.account == some ip.units
  | _ => sortedPairs t == sortedPairs it

end Dedup

/-!
## Concrete inputs used by counterexamples and witnesses
-/

namespace Fixtures

open Ledger DirModel Dedup TextEditor

def entryA : Entry := ⟨"A", "main.bean", 1, none⟩

def entryB : Entry := ⟨"B", "main.bean", 1, none⟩

/-- A ledger holding one committed entry under its stable hash. -/
def stOne : LedgerState := ⟨[("#A;", entryA)], [], [], []⟩

/-- A `secrets.token_hex` stream whose first draw is `"aa"` and whose later
draws are `"bb"`. -/
def drawsAB : Nat → String := fun k => if k = 0 then "aa" else "bb"

def dirMetaNone : Directive := .openDir ⟨none, 0, "Assets:Cash"⟩

def dirFull : Directive :=
  .txn ⟨some [("k", "v")], 5, "*", some "shop", none,
    [⟨"Assets:A", some (10, "EUR"), none⟩,
     ⟨"Expenses:B", none, some []⟩]⟩

/-- Existing transaction with two postings and an empty-string payee. -/
def txnTwoLegs : DTxn :=
  ⟨7, some "", some "coffee",
    [⟨"Assets:A", (10, "USD")⟩, ⟨"Expenses:B", (-10, "USD")⟩]⟩

/-- Imported transaction carrying only one of those postings, with an
absent payee (normalised equal to the empty string). -/
def txnOneLeg : DTxn :=
  ⟨7, none, some "coffee", [⟨"Assets:A", (10, "USD")⟩]⟩

/-- The two-posting transaction again, with its postings listed in the
opposite order and an absent payee. -/
def txnPermuted : DTxn :=
  ⟨7, none, some "coffee",
    [⟨"Expenses:B", (-10, "USD")⟩, ⟨"Assets:A", (10, "USD")⟩]⟩

end Fixtures

/-!
## Claim theorems
-/

namespace Claims

open Ledger IDGen DirModel Dedup TextEditor Fixtures

/-- Claim C1 (code bug): evaluation of the source at the failing input.
`replace` on the known ID `"#A;"` stages the new entry under `"#A;"` but
returns the hash of the new entry, and the subsequent `save()` stores the
replacement in `existing` under that *new* hash `"#B;"` and deletes the
old ID — the replacement does not stay under the unchanged ID, contrary to
the claim, the spec, and the repository's own test
(`ledger_test.py`, `assert new_entry_id == existing_entry_id`). -/
theorem claim1_replace_rekeys_on_save :
    (∃ r, replaceEntry hashModel [] stOne "#A;" entryB = some r ∧
      r.1 = some "#B;" ∧ dictGet r.2.changed "#A;" = some entryB ∧
      saveState hashModel r.2 = some ⟨[("#B;", entryB)], [], [], []⟩ ∧
      dictGet (⟨[("#B;", entryB)], [], [], []⟩ : LedgerState).existing "#A;"
        = none) ∧
    "#A;" ≠ "#B;" ∧
    (replaceEntry hashModel [] stOne "zzz" entryB = some (none, stOne)) := by
  refine ⟨⟨(some "#B;", { stOne with changed := [("#A;", entryB)] }),
    ?_, ?_, ?_, ?_, ?_⟩, ?_, ?_⟩ <;> decide

/-- Claim C3 counterexample: a load whose parse produced a non-empty error
list does not raise (`none` would model the raise) — it returns a fully
built state, identical to the state of an error-free load. -/
theorem claim3_counterexample :
    ["boom"] ≠ ([] : List String) ∧
    (loadLedger hashModel [] ⟨[entryA], ["boom"]⟩).2 =
      some ⟨[("#A;", entryA)], [], [], []⟩ := by
  constructor
  · decide
  · decide

/-- Claim C3 (amended): `Ledger.load` only logs parse errors
(`logger.error`) and continues — the resulting state is exactly the state
of loading the same entries with an empty error list, and the error list
never causes the raising branch. -/
theorem claim3_load_logs_and_continues (h : Entry → String)
    (salts : List String) (pr : ParseResult) :
    (loadLedger h salts pr).2 = (loadLedger h salts ⟨pr.entries, []⟩).2 ∧
    (pr.errors ≠ [] →
      (loadLedger h salts pr).1 =
        ["Errors occurred while loading the ledger"]) := by
  constructor
  · rfl
  · intro hne
    have : pr.errors.isEmpty = false := by
      cases he : pr.errors with
      | nil => exact absurd he hne
      | cons a t => rfl
    simp [loadLedger, this]

/-- Claim C3 witness: the amended theorem applied at a concrete parse
result carrying one error. -/
theorem claim3_witness :
    (loadLedger hashModel [] ⟨[entryA], ["boom"]⟩).2 =
      (loadLedger hashModel [] ⟨[entryA], []⟩).2 ∧
    (loadLedger hashModel [] ⟨[entryA], ["boom"]⟩).1 =
      ["Errors occurred while loading the ledger"] :=
  ⟨(claim3_load_logs_and_continues hashModel [] ⟨[entryA], ["boom"]⟩).1,
   (claim3_load_logs_and_continues hashModel [] ⟨[entryA], ["boom"]⟩).2
     (by decide)⟩

/-- Claim C4 (code bug): evaluation of the source at the failing input.
With `max_attempts = 2`, issued set `{"aa"}` and a draw stream whose first
draw collides and whose second draw `"bb"` is fresh, the loop exits with
`n_attempt == max_attempts`, so `generate` raises the exhaustion error
even though a draw within the permitted attempts produced a fresh token —
contrary to the claim and to the method's own docstring (raise only "if
unable to generate unique ID after max attempts"). -/
theorem claim4_generate_raises_despite_fresh_final_draw :
    generate ["aa"] drawsAB 2 =
      .error "Failed to generate unique ID after maximum attempts" ∧
    drawsAB 1 = "bb" ∧ "bb" ∉ ["aa"] ∧
    generate ["aa"] drawsAB 3 = .ok ("bb", ["aa", "bb"]) := by
  refine ⟨rfl, rfl, by decide, rfl⟩

/-- Claim C6 (code bug): evaluation of the source at the failing input.
A validated change list consisting of a `Replace` whose range reaches the
end of the file followed by an `Append`: the streaming loop exits when the
replace consumes the last line (`line_idx = len(lines) - 1`) and the
`Append` content `"a\n"` is silently omitted from the output — contrary
to the claim and to the spec's algorithm step "then emit Append content
after all original lines". -/
theorem claim6_append_dropped_after_replace_to_eof :
    saveChanges ["l0\n", "l1\n"]
        [.replace 0 2 ["r\n"], .append ["a\n"]] = .ok ["r\n"] ∧
    checkNonOverlapping 3
        (sortChanges 3 [.replace 0 2 ["r\n"], .append ["a\n"]]) = true ∧
    checkRangeValidity 3 3
        (sortChanges 3 [.replace 0 2 ["r\n"], .append ["a\n"]]) = true := by
  refine ⟨rfl, by decide, by decide⟩

/-- Claim C7 counterexample: a directive built with `meta=None` does not
round-trip — `MutableDirective.to_immutable` replaces the `None` metadata
map with an empty dict. -/
theorem claim7_counterexample :
    MutableDirective.to_immutable (to_mutable dirMetaNone) ≠ dirMetaNone ∧
    MutableDirective.to_immutable (to_mutable dirMetaNone) =
      .openDir ⟨some [], 0, "Assets:Cash"⟩ := by
  constructor
  · decide
  · decide

/-- Claim C7 (amended): for every supported directive whose metadata map
is present (not `None`), wrapping with `to_mutable` (no ID assigned) and
converting back with `to_immutable` yields the original directive; a
`None` metadata map is the only exception and is normalised to an empty
map. -/
theorem claim7_roundtrip (d : Directive) (hmeta : getMeta d ≠ none) :
    MutableDirective.to_immutable (to_mutable d) = d := by
  cases d with
  | txn t =>
      have hpost : t.postings.map (fun p => toImmutableP (fromImmutableP p))
          = t.postings := by
        simp [toImmutableP, fromImmutableP]
      have hm : t.meta ≠ none := hmeta
      simp [MutableDirective.to_immutable, to_mutable, fromImmutable,
        toImmutable, getMeta, List.map_map, Function.comp_def, hpost, hm]
  | openDir o =>
      have hm : o.meta ≠ none := hmeta
      simp [MutableDirective.to_immutable, to_mutable, fromImmutable,
        toImmutable, getMeta, hm]

/-- Claim C7 witness: the amended round-trip at a transaction with
metadata, two postings (one with `meta=None`, exercising that posting
metadata is copied untouched). -/
theorem claim7_witness :
    getMeta dirFull ≠ none ∧
    MutableDirective.to_immutable (to_mutable dirFull) = dirFull :=
  ⟨by decide, claim7_roundtrip dirFull (by decide)⟩

/-- Claim C8 (confirmed): `Ledger.remove` reports `True` exactly when the
ID is a key of `existing`, `new` or `changed`; for an ID known nowhere it
returns `False` with the state untouched (the source logs a warning and
returns normally — the operation is total, never an exception). -/
theorem claim8_remove_found_iff_known (st : LedgerState) (id : String) :
    ((removeEntry st id).1 = true ↔
      (dictHas st.existing id = true ∨ dictHas st.newE id = true ∨
        dictHas st.changed id = true)) ∧
    ((removeEntry st id).1 = false → (removeEntry st id).2 = st) := by
  rcases hE : dictGet st.existing id with _ | e <;>
    rcases hN : (dictGet st.newE id).isSome with _ | _ <;>
      rcases hC : (dictGet st.changed id).isSome with _ | _ <;>
        simp [removeEntry, dictHas, hE, hN, hC]

/-- Claim C8 witness: the theorem applied to the one-entry ledger and an
unknown ID (returns `False`, state untouched) — both conjuncts evaluated
at that input. -/
theorem claim8_witness :
    (((removeEntry stOne "zzz").1 = true ↔
      (dictHas stOne.existing "zzz" = true ∨ dictHas stOne.newE "zzz" = true ∨
        dictHas stOne.changed "zzz" = true)) ∧
    ((removeEntry stOne "zzz").1 = false → (removeEntry stOne "zzz").2 = stOne))
    ∧ (removeEntry stOne "zzz").1 = false :=
  ⟨claim8_remove_found_iff_known stOne "zzz", by decide⟩

/-- Claim C10 counterexample: over an empty backing file, a staged
`Insert` at line 1 is not silently discarded — range validation raises
(line 1 is outside `[0, 1)`, the editor's line count being the sentinel
line only), so `save_changes` does not write at all. -/
theorem claim10_counterexample :
    saveChanges [] [.insert 1 ["x\n"]] = .error "invalid range" := rfl

/-- Every streaming pass over an empty file emits nothing: the loop guard
`line_idx < len(lines) - 1` is `0 < 0` at entry. -/
theorem applyChanges_empty_file (n : Int) (l : List Change) :
    applyChanges n [""] l 0 = [] := by
  cases l <;> simp [applyChanges]

/-- Claim C10 (amended): for a `TextEditor` over an empty backing file,
every staged change list that passes validation (and only those — invalid
positions still raise) produces an empty output file: all content,
including `Append` content and `Insert` at line 0, is discarded without
error. -/
theorem claim10_empty_file_discards (cs : List Change) (out : List String)
    (hok : saveChanges [] cs = .ok out) : out = [] := by
  unfold saveChanges at hok
  dsimp only at hok
  split at hok
  · split at hok
    · cases hok
      exact applyChanges_empty_file _ _
    · cases hok
  · cases hok

/-- Claim C10 witness: the amended theorem applied to a staged `Append`
(plus an `Insert` at line 0 in a second staged list) over the empty file. -/
theorem claim10_witness :
    saveChanges [] [Change.append ["x\n"]] = .ok [] ∧
    saveChanges [] [Change.insert 0 ["y\n"]] = .ok [] ∧
    ([] : List String) = [] :=
  ⟨rfl, rfl, claim10_empty_file_discards [Change.append ["x\n"]] [] rfl⟩

theorem resolveRange_of_nonneg (count : Nat) (r : Int × Int) (h1 : 0 ≤ r.1)
    (h2 : 0 ≤ r.2) : resolveRange count r = r := by
  unfold resolveRange
  rw [if_neg (not_lt.mpr h1), if_neg (not_lt.mpr h2)]

theorem resolveRange_sentinel (count : Nat) (b : Int) (h : 0 ≤ b) :
    resolveRange count (b, -1) = (b, (count : Int)) := by
  unfold resolveRange
  rw [if_neg (not_lt.mpr h), if_pos (by norm_num)]
  have h2 : (-1 : Int) + ((count : Int) + 1) = (count : Int) := by omega
  simp [h2]

theorem coveredBy_cons (r : Int × Int) (rs : List (Int × Int)) (x : Int) :
    coveredBy (r :: rs) x ↔ (r.1 ≤ x ∧ x < r.2) ∨ coveredBy rs x := by
  simp [coveredBy]

/-- Core induction for claim C5, over the sorted lineno list of one file:
the resolved ranges chain end-to-start, are nonempty, end at end-of-file,
cover exactly `[first_lineno - 1, count)`, start at `first_lineno - 1`,
and are pairwise ordered. -/
theorem rangesOfSorted_resolved_spec (count : Nat) :
    ∀ ls : List Nat, ls ≠ [] → List.Pairwise (fun a b => a < b) ls →
    (∀ l ∈ ls, 1 ≤ l ∧ l ≤ count) →
    (((rangesOfSorted ls).map (resolveRange count)).Chain'
        (fun r r' => r.2 = r'.1) ∧
      (∀ r ∈ (rangesOfSorted ls).map (resolveRange count), r.1 < r.2) ∧
      (((rangesOfSorted ls).map (resolveRange count)).getLast?.map
          (fun r => r.2) = some (count : Int)) ∧
      (∀ x : Int,
        coveredBy ((rangesOfSorted ls).map (resolveRange count)) x ↔
          ((ls.headD 1 : Int) - 1 ≤ x ∧ x < (count : Int))) ∧
      (((rangesOfSorted ls).map (resolveRange count)).head?.map
          (fun r => r.1) = some ((ls.headD 1 : Int) - 1)) ∧
      ((rangesOfSorted ls).map (resolveRange count)).Pairwise
        (fun r r' => r.2 ≤ r'.1))
  | [], hne, _, _ => absurd rfl hne
  | [l], _, _, hbound => by
      obtain ⟨h1, h2⟩ := hbound l (by simp)
      have hb : (0 : Int) ≤ (l : Int) - 1 := by
        omega
      have hres := resolveRange_sentinel count ((l : Int) - 1) hb
      refine ⟨by simp [rangesOfSorted, hres], ?_,
        by simp [rangesOfSorted, hres], ?_,
        by simp [rangesOfSorted, hres], by simp [rangesOfSorted, hres]⟩
      · intro r hr
        simp [rangesOfSorted, hres] at hr
        subst hr
        simp
        omega
      · intro x
        simp [rangesOfSorted, hres, coveredBy]
  | l :: l2 :: rest, _, hsorted, hbound => by
      have hl := hbound l (by simp)
      have hl2 := hbound l2 (by simp)
      have hll2 : l < l2 := (List.pairwise_cons.mp hsorted).1 l2 (by simp)
      have ih := rangesOfSorted_resolved_spec count (l2 :: rest)
        (by simp) (List.pairwise_cons.mp hsorted).2
        (fun a ha => hbound a (List.mem_cons_of_mem l ha))
      obtain ⟨ihA, ihB, ihC, ihD, ihE, ihF⟩ := ih
      have hres : resolveRange count ((l : Int) - 1, (l2 : Int) - 1)
          = ((l : Int) - 1, (l2 : Int) - 1) :=
        resolveRange_of_nonneg count _ (by simp; omega) (by simp; omega)
      rcases hM : (rangesOfSorted (l2 :: rest)).map (resolveRange count) with
        _ | ⟨m0, M⟩
      · rw [hM] at ihE
        simp at ihE
      · rw [hM] at ihA ihB ihC ihD ihE ihF
        have hm0 : m0.1 = (l2 : Int) - 1 := by
          simp at ihE
          omega
        have hm0lt : m0.1 < m0.2 := ihB m0 (by simp)
        refine ⟨?_, ?_, ?_, ?_, ?_, ?_⟩
        · simp only [rangesOfSorted, List.map_cons, hres, hM,
            List.chain'_cons]
          exact ⟨by simp [hm0], ihA⟩
        · intro r hr
          simp only [rangesOfSorted, List.map_cons, hres, hM,
            List.mem_cons] at hr
          rcases hr with h | h
          · subst h
            simp
            omega
          · exact ihB r (by simpa using h)
        · simp only [rangesOfSorted, List.map_cons, hres, hM]
          simpa using ihC
        · intro x
          have hd := ihD x
          simp only [List.headD_cons] at hd
          simp only [rangesOfSorted, List.map_cons, hres, hM,
            coveredBy_cons, hd, List.headD_cons]
          simp only [coveredBy_cons] at hd
          constructor
          · intro h
            rcases h with h | h
            · simp at h
              omega
            · omega
          · intro h
            by_cases hx : x < (l2 : Int) - 1
            · exact Or.inl (by simp; omega)
            · exact Or.inr (by omega)
        · simp [rangesOfSorted, hres, hM]
        · simp only [rangesOfSorted, List.map_cons, hres, hM]
          refine List.Pairwise.cons ?_ ihF
          intro r hr
          rcases List.mem_cons.mp hr with h | h
          · subst h
            simp
            omega
          · have := (List.pairwise_cons.mp ihF).1 r h
            simp
            omega

/-- Claim C5 counterexample: a 3-line file whose single directive starts
on line 2 (say after a comment or option line).  The resolved range list
is `[(1, 3)]`: line 0 is covered by no range, so the union does not cover
`[0, file_line_count)` as the claim states. -/
theorem claim5_counterexample :
    resolvedRanges 3 [2] = [(1, 3)] ∧ ¬ coveredBy (resolvedRanges 3 [2]) 0 := by
  constructor
  · decide
  · decide

/-- Claim C5 (amended): for a file with `count` lines and `N >= 1` existing
directives starting at strictly increasing 1-indexed lines within the
file, the computed LineRanges (half-open, 0-indexed, after resolving the
end-of-file sentinel through the text editor) chain exactly — each range
ends where the next begins — are nonempty, are pairwise non-overlapping
and ordered by start in file order, the last extends to end-of-file, and
their union covers exactly `[first_lineno - 1, count)`; this equals
`[0, count)` precisely when the first directive starts on line 1, and
misses the leading `first_lineno - 1` lines otherwise. -/
theorem claim5_lineno_ranges (count : Nat) (ls : List Nat) (hne : ls ≠ [])
    (hsorted : List.Pairwise (fun a b => a < b) ls)
    (hbound : ∀ l ∈ ls, 1 ≤ l ∧ l ≤ count) :
    ((resolvedRanges count ls).Chain' (fun r r' => r.2 = r'.1) ∧
      (∀ r ∈ resolvedRanges count ls, r.1 < r.2) ∧
      ((resolvedRanges count ls).getLast?.map (fun r => r.2)
        = some (count : Int)) ∧
      (∀ x : Int, coveredBy (resolvedRanges count ls) x ↔
        ((ls.headD 1 : Int) - 1 ≤ x ∧ x < (count : Int))) ∧
      (resolvedRanges count ls).Pairwise (fun r r' => r.2 ≤ r'.1)) := by
  have heq : List.insertionSort (fun a b => a ≤ b) ls = ls :=
    List.Sorted.insertionSort_eq (hsorted.imp (fun h => Nat.le_of_lt h))
  have h := rangesOfSorted_resolved_spec count ls hne hsorted hbound
  unfold resolvedRanges extractLinenoRanges
  rw [heq]
  exact ⟨h.1, h.2.1, h.2.2.1, h.2.2.2.1, h.2.2.2.2.2⟩

/-- Claim C5 witness: two directives at lines 1 and 3 of a 5-line file;
ranges resolve to `[(0, 2), (2, 5)]` and the amended theorem applies. -/
theorem claim5_witness :
    ([1, 3] ≠ ([] : List Nat)) ∧
    ((resolvedRanges 5 [1, 3]).Chain' (fun r r' => r.2 = r'.1) ∧
      (∀ r ∈ resolvedRanges 5 [1, 3], r.1 < r.2) ∧
      ((resolvedRanges 5 [1, 3]).getLast?.map (fun r => r.2)
        = some (5 : Int)) ∧
      (∀ x : Int, coveredBy (resolvedRanges 5 [1, 3]) x ↔
        ((([1, 3].headD 1 : Nat) : Int) - 1 ≤ x ∧ x < (5 : Int))) ∧
      (resolvedRanges 5 [1, 3]).Pairwise (fun r r' => r.2 ≤ r'.1)) :=
  ⟨by decide,
   claim5_lineno_ranges 5 [1, 3] (by decide) (by decide) (by decide)⟩

theorem map_pair_eq_iff : ∀ (l1 l2 : List DPosting),
    l1.map (fun p => (p.account, p.units))
        = l2.map (fun p => (p.account, p.units)) ↔
      (l1.map (fun p => p.account) = l2.map (fun p => p.account) ∧
        l1.map (fun p => p.units) = l2.map (fun p => p.units))
  | [], [] => by simp
  | [], _ :: _ => by simp
  | _ :: _, [] => by simp
  | p :: l1, q :: l2 => by
      simp only [List.map_cons, List.cons.injEq, Prod.mk.injEq]
      rw [map_pair_eq_iff l1 l2]
      tauto

theorem contains_iff_find?_isSome (a : String) : ∀ (l : List DPosting),
    ((l.map (fun q => q.account)).contains a = true ↔
      (l.find? (fun q => q.account == a)).isSome = true)
  | [] => by simp
  | p :: t => by
      by_cases hpa : p.account = a
      · simp [hpa]
      · have h1 : (p.account == a) = false := beq_eq_false_iff_ne.mpr hpa
        have hstep : List.find? (fun q => q.account == a) (p :: t)
            = List.find? (fun q => q.account == a) t :=
          List.find?_cons_of_neg t (by simp [h1])
        rw [List.map_cons, List.contains_cons, hstep,
          ← contains_iff_find?_isSome a t]
        simp [Ne.symm hpa, beq_iff_eq]

theorem getD_indexOf_find? (a : String) (p : DPosting) :
    ∀ (l : List DPosting),
    l.find? (fun q => q.account == a) = some p →
      (l.map (fun q => q.units)).getD
        ((l.map (fun q => q.account)).indexOf a) (0, "") = p.units
  | [], hf => by simp at hf
  | q :: t, hf => by
      by_cases hqa : q.account = a
      · have hq : (q.account == a) = true := beq_iff_eq.mpr hqa
        have hstep : List.find? (fun r => r.account == a) (q :: t)
            = some q := List.find?_cons_of_pos t (by simp [hq])
        rw [hstep] at hf
        cases hf
        simp [List.indexOf_cons, hq]
      · have h1 : (q.account == a) = false := beq_eq_false_iff_ne.mpr hqa
        have hstep : List.find? (fun r => r.account == a) (q :: t)
            = List.find? (fun r => r.account == a) t :=
          List.find?_cons_of_neg t (by simp [h1])
        rw [hstep] at hf
        have ih := getD_indexOf_find? a p t hf
        simp only [List.map_cons, List.indexOf_cons, h1, cond_false,
          List.getD_cons_succ]
        exact ih

/-- `_compare_postings` computes exactly the extensional posting match of
`postingsMatchSpec`. -/
theorem comparePostings_iff (t it : DTxn) :
    comparePostings t.postings it.postings = true ↔
      postingsMatchSpec t it = true := by
  unfold comparePostings postingsMatchSpec
  rcases hips : sortPostings it.postings with _ | ⟨ip, rest⟩
  · simp
  · rcases rest with _ | ⟨ip2, rest2⟩
    · -- exactly one imported posting
      have e1 : ((List.map (fun p => p.account) [ip]).length == 1) = true :=
        rfl
      have e2 : decide ((List.map (fun p => p.account) [ip]).length > 1)
          = false := rfl
      have e3 : ((List.map (fun p => p.units) [ip]).length == 1) = true :=
        rfl
      have e4 : decide ((List.map (fun p => p.units) [ip]).length > 1)
          = false := rfl
      rcases hfind : (sortPostings t.postings).find?
          (fun q => q.account == ip.account) with _ | p
      · have hcont := contains_iff_find?_isSome ip.account
          (sortPostings t.postings)
        rw [hfind] at hcont
        have hcf : (List.map (fun q => q.account)
            (sortPostings t.postings)).contains ip.account = false :=
          Bool.eq_false_iff.mpr (fun hb => by simpa using hcont.mp hb)
        simp only [e1, e2, e3, e4, Bool.true_and, Bool.false_and,
          List.map_cons, List.map_nil, List.headD_cons, hcf,
          Bool.not_false]
        simp [firstUnitsAt, hfind]
      · have hcont := contains_iff_find?_isSome ip.account
          (sortPostings t.postings)
        rw [hfind] at hcont
        have hct : (List.map (fun q => q.account)
            (sortPostings t.postings)).contains ip.account = true :=
          hcont.mpr (by simp)
        have hgetD := getD_indexOf_find? ip.account p
          (sortPostings t.postings) hfind
        simp only [e1, e2, e3, e4, Bool.true_and, Bool.false_and,
          List.map_cons, List.map_nil, List.headD_cons, hct, hgetD,
          Bool.not_true]
        by_cases hu : p.units = ip.units <;>
          simp [firstUnitsAt, hfind, hu]
    · -- two or more imported postings
      have hpair := map_pair_eq_iff (sortPostings t.postings)
        (ip :: ip2 :: rest2)
      have hlen1 : ((List.map (fun p => p.account)
          (ip :: ip2 :: rest2)).length == 1) = false := by
        simp
      have hlen2 : decide ((List.map (fun p => p.account)
          (ip :: ip2 :: rest2)).length > 1) = true := by
        simp
      have hlen3 : ((List.map (fun p => p.units)
          (ip :: ip2 :: rest2)).length == 1) = false := by
        simp
      have hlen4 : decide ((List.map (fun p => p.units)
          (ip :: ip2 :: rest2)).length > 1) = true := by
        simp
      simp only [sortedPairs, hips]
      split_ifs with h1 h2 h3 h4
      · exact absurd h1 (by simp [hlen1])
      · have hane : List.map (fun p => p.account) (ip :: ip2 :: rest2)
            ≠ List.map (fun p => p.account) (sortPostings t.postings) := by
          simp only [hlen2, Bool.true_and, Bool.not_eq_eq_eq_not,
            Bool.not_true, beq_eq_false_iff_ne, ne_eq] at h2
          exact h2
        refine iff_of_false (by simp) ?_
        simp only [beq_iff_eq]
        exact fun h => hane ((hpair.mp h).1.symm)
      · exact absurd h3 (by simp [hlen3])
      · have hune : List.map (fun p => p.units) (sortPostings t.postings)
            ≠ List.map (fun p => p.units) (ip :: ip2 :: rest2) := by
          simp only [hlen4, Bool.true_and, Bool.not_eq_eq_eq_not,
            Bool.not_true, beq_eq_false_iff_ne, ne_eq] at h4
          exact h4
        refine iff_of_false (by simp) ?_
        simp only [beq_iff_eq]
        exact fun h => hune (hpair.mp h).2
      · have hacc : List.map (fun p => p.account) (ip :: ip2 :: rest2)
            = List.map (fun p => p.account) (sortPostings t.postings) := by
          simp only [hlen2, Bool.true_and, Bool.not_eq_eq_eq_not,
            Bool.not_true, beq_eq_false_iff_ne, ne_eq, not_not] at h2
          exact h2
        have hun : List.map (fun p => p.units) (sortPostings t.postings)
            = List.map (fun p => p.units) (ip :: ip2 :: rest2) := by
          simp only [hlen4, Bool.true_and, Bool.not_eq_eq_eq_not,
            Bool.not_true, beq_eq_false_iff_ne, ne_eq, not_not] at h4
          exact h4
        refine iff_of_true rfl ?_
        simp only [beq_iff_eq]
        exact hpair.mpr ⟨hacc.symm, hun⟩

/-- Claim C9 counterexample: equal dates, payees (None normalised to
empty) and narrations, but the imported single-posting transaction's
`(account, amount)` list is not equal to the existing two-posting list —
yet the comparator reports a duplicate.  The claimed "if and only if"
fails in the only-if direction. -/
theorem claim9_counterexample :
    similarComparator txnTwoLegs txnOneLeg = true ∧
    sortedPairs txnTwoLegs ≠ sortedPairs txnOneLeg := by
  constructor
  · decide
  · decide

/-- Claim C9 (amended): the similar-entry comparator on two transactions
reports a duplicate iff dates are equal, payees and narrations are equal
after normalising `None` to the empty string, and the postings match
extensionally — equal sorted `(account, amount)` lists when the imported
transaction has two or more postings, but, when it has exactly one
posting, merely that the existing transaction's first posting with that
account (after sorting by account) carries the same amount; with no
imported postings the posting check passes vacuously. -/
theorem claim9_similar_comparator (t it : DTxn) :
    similarComparator t it = true ↔
      (t.date = it.date ∧ t.payee.getD "" = it.payee.getD "" ∧
        t.narration.getD "" = it.narration.getD "" ∧
        postingsMatchSpec t it = true) := by
  unfold similarComparator optStrEq
  simp only [Bool.and_eq_true, beq_iff_eq, comparePostings_iff, and_assoc]

/-- Claim C9 witness: the amended equivalence applied to the two-posting
transaction against its permutation (absent payee versus empty payee,
postings in swapped order): both sides hold. -/
theorem claim9_witness :
    (similarComparator txnTwoLegs txnPermuted = true ↔
      (txnTwoLegs.date = txnPermuted.date ∧
        txnTwoLegs.payee.getD "" = txnPermuted.payee.getD "" ∧
        txnTwoLegs.narration.getD "" = txnPermuted.narration.getD "" ∧
        postingsMatchSpec txnTwoLegs txnPermuted = true)) ∧
    similarComparator txnTwoLegs txnPermuted = true :=
  ⟨claim9_similar_comparator txnTwoLegs txnPermuted, by decide⟩

theorem wf_of_validity (n lc : Int) (cs : List Change)
    (h : checkRangeValidity n lc cs = true) :
    ∀ c ∈ cs, (posT n c).1 ≤ (posT n c).2 := by
  intro c hc
  have hx := (List.all_eq_true.mp h) c hc
  simp only [Bool.or_eq_true, Bool.and_eq_true, beq_iff_eq,
    decide_eq_true_eq] at hx
  rcases hx with ⟨h1, h2⟩ | ⟨⟨_, h2⟩, _⟩
  · rw [h1, h2]
  · exact h2

theorem bounds_of_validity (n lc : Int) (cs : List Change)
    (h : checkRangeValidity n lc cs = true) :
    ∀ c ∈ cs, posT n c = (INF, INF) ∨
      (0 ≤ (posT n c).1 ∧ (posT n c).1 ≤ (posT n c).2 ∧ (posT n c).2 < lc)
    := by
  intro c hc
  have hx := (List.all_eq_true.mp h) c hc
  simp only [Bool.or_eq_true, Bool.and_eq_true, beq_iff_eq,
    decide_eq_true_eq] at hx
  rcases hx with ⟨h1, h2⟩ | hx
  · exact Or.inl (Prod.ext h1 h2)
  · exact Or.inr ⟨hx.1.1, hx.1.2, hx.2⟩

theorem adjOk_spec (n : Int) (c d : Change) (h : adjOk n c d = true) :
    ¬((posT n c).1 ≤ (posT n d).1 ∧ (posT n d).1 < (posT n c).2) ∧
      ((posT n c).1 = (posT n c).2 →
        ¬((posT n d).1 = (posT n d).2 ∧ (posT n d).2 = (posT n c).1)) := by
  unfold adjOk at h
  obtain ⟨h1, h2⟩ := Bool.and_eq_true_iff.mp h
  refine ⟨of_decide_eq_true h1, ?_⟩
  intro hbe
  rw [if_pos hbe] at h2
  exact of_decide_eq_true h2

theorem noConflict_symm : ∀ {n : Int} {c d : Change},
    noConflict n c d → noConflict n d c := by
  intro n c d ⟨h1, h2⟩
  constructor
  · intro ⟨o1, o2, o3, o4⟩
    exact h1 ⟨o2, o1, o4, o3⟩
  · intro ⟨z1, z2, z3⟩
    exact h2 ⟨z2, z1, z3.symm⟩

/-- In a position-sorted change list every adjacent pair of which passes
`_check_changes_non_overlapping`, and whose resolved ranges are all
well-formed, every (not necessarily adjacent) pair is conflict-free. -/
theorem pairwise_noConflict (n : Int) : ∀ l : List Change,
    (∀ c ∈ l, (posT n c).1 ≤ (posT n c).2) →
    l.Sorted (posLe n) →
    checkNonOverlapping n l = true →
    l.Pairwise (noConflict n)
  | [], _, _, _ => List.Pairwise.nil
  | [c], _, _, _ => by simp
  | c :: d :: t, hwf, hsorted, hchk => by
      obtain ⟨hadj, hrest⟩ := Bool.and_eq_true_iff.mp
        (by simpa [checkNonOverlapping] using hchk)
      have hsorted2 : (d :: t).Sorted (posLe n) := hsorted.of_cons
      have ih := pairwise_noConflict n (d :: t)
        (fun x hx => hwf x (List.mem_cons_of_mem c hx)) hsorted2 hrest
      refine List.Pairwise.cons ?_ ih
      intro x hx
      have hcd : posLe n c d := List.rel_of_sorted_cons hsorted d (by simp)
      have hcx : posLe n c x := List.rel_of_sorted_cons hsorted x hx
      have hspec := adjOk_spec n c d hadj
      have hwfc := hwf c (by simp)
      have hwfd := hwf d (by simp)
      have hwfx := hwf x (List.mem_cons_of_mem c hx)
      have hEcBd : (posT n c).2 ≤ (posT n d).1 := by
        unfold posLe at hcd
        have := hspec.1
        omega
      rcases List.mem_cons.mp hx with rfl | hxt
      · constructor
        · intro ⟨o1, o2, o3, o4⟩
          omega
        · intro ⟨z1, z2, z3⟩
          exact hspec.2 z1 ⟨z2, z2.symm.trans z3.symm⟩
      · have hdx : posLe n d x := List.rel_of_sorted_cons hsorted2 x hxt
        constructor
        · intro ⟨o1, o2, o3, o4⟩
          unfold posLe at hdx
          omega
        · intro ⟨z1, z2, z3⟩
          have hsp2 := hspec.2 z1
          unfold posLe at hdx
          omega

/-- An insert (after resolution) is a zero-width position. -/
theorem insert_zw (n : Int) (c : Change) (h : isInsertC c = true) :
    (posT n c).1 = (posT n c).2 := by
  cases c with
  | insert p cont => simp [posT]
  | delete a b => simp [isInsertC] at h
  | replace a b cont => simp [isInsertC] at h
  | append cont => simp [isInsertC] at h

/-- If both validation passes succeed on the sorted list, no claim-level
validation failure (in the amended sense) can exist in the staged list. -/
theorem no_specFailure_of_checks (orig : List String) (cs : List Change)
    (hno : checkNonOverlapping (lineCountC orig)
      (sortChanges (lineCountC orig) cs) = true)
    (hrv : checkRangeValidity (lineCountC orig) (lineCountC orig)
      (sortChanges (lineCountC orig) cs) = true) :
    ¬ SpecValidationFailureAmended orig cs := by
  intro hfail
  have hperm : List.Perm (sortChanges (lineCountC orig) cs) cs :=
    List.perm_insertionSort _ _
  have hsorted : List.Sorted (posLe (lineCountC orig))
      (sortChanges (lineCountC orig) cs) := List.sorted_insertionSort _ _
  have hwf := wf_of_validity (lineCountC orig) (lineCountC orig)
    (sortChanges (lineCountC orig) cs) hrv
  have hpw := pairwise_noConflict (lineCountC orig)
    (sortChanges (lineCountC orig) cs) hwf hsorted hno
  have hpwcs : cs.Pairwise (noConflict (lineCountC orig)) :=
    (hperm.pairwise_iff (fun {x y} hxy => noConflict_symm hxy)).mp hpw
  rcases hfail with ⟨i, j, hij, hov⟩ | ⟨i, j, hij, hinsi, hinsj, hsame⟩ |
      ⟨c, hc, _, hoob, hsent⟩
  · exact (List.pairwise_iff_get.mp hpwcs i j hij).1 hov
  · exact (List.pairwise_iff_get.mp hpwcs i j hij).2
      ⟨insert_zw _ _ hinsi, insert_zw _ _ hinsj, hsame⟩
  · have hb := bounds_of_validity (lineCountC orig) (lineCountC orig)
      (sortChanges (lineCountC orig) cs) hrv c (hperm.mem_iff.mpr hc)
    rcases hb with hb | hb
    · exact hsent hb
    · have hre1 : (resolvedPos orig c).1 = (posT (lineCountC orig) c).1 :=
        rfl
      have hre2 : (resolvedPos orig c).2 = (posT (lineCountC orig) c).2 :=
        rfl
      rcases hoob with h | h | h | h <;> omega

/-- Claim C2 counterexample: a `Replace` whose position is forged to the
exact sentinel pair `(maxsize, maxsize)` — a non-Append resolved position
far outside `[0, line_count)`, so the claim demands a raise — passes both
validation checks (the range check accepts `(INF, INF)` unconditionally),
is then treated as an append by the streaming loop, and `save_changes`
writes a modified file. -/
theorem claim2_counterexample :
    SpecValidationFailure ["a\n"] [Change.replace INF INF ["x\n"]] ∧
    saveChanges ["a\n"] [Change.replace INF INF ["x\n"]]
      = .ok ["a\n", "", "x\n"] ∧
    String.join (fileAfter ["a\n"] [Change.replace INF INF ["x\n"]])
      ≠ String.join ["a\n"] := by
  exact ⟨by decide, rfl, by decide⟩

/-- Claim C2 (amended): for every `TextEditor` and staged change list that
fails validation — two changes with overlapping resolved ranges, two
zero-width inserts at the same line, or a non-Append resolved position
outside `[0, line_count)` other than the exact forged sentinel pair
`(maxsize, maxsize)` — `save_changes` raises before performing any write
and the target file is untouched. -/
theorem claim2_validation_blocks_write (orig : List String)
    (cs : List Change) (hfail : SpecValidationFailureAmended orig cs) :
    (∃ msg, saveChanges orig cs = .error msg) ∧
      fileAfter orig cs = orig := by
  by_cases h1 : checkNonOverlapping (lineCountC orig)
      (sortChanges (lineCountC orig) cs) = true
  · by_cases h2 : checkRangeValidity (lineCountC orig) (lineCountC orig)
        (sortChanges (lineCountC orig) cs) = true
    · exact absurd hfail (no_specFailure_of_checks orig cs h1 h2)
    · have herr : saveChanges orig cs = .error "invalid range" := by
        unfold saveChanges
        dsimp only
        rw [if_pos h1, if_neg h2]
      exact ⟨⟨"invalid range", herr⟩, by unfold fileAfter; rw [herr]⟩
  · have herr : saveChanges orig cs = .error "overlapping changes" := by
      unfold saveChanges
      dsimp only
      rw [if_neg h1]
    exact ⟨⟨"overlapping changes", herr⟩, by unfold fileAfter; rw [herr]⟩

/-- Claim C2 witness: a `Delete` of lines `[0, 2)` overlapping a `Replace`
of lines `[1, 2)` over a two-line file — the amended theorem applies and
`save_changes` raises with the file unchanged. -/
theorem claim2_witness :
    SpecValidationFailureAmended ["a\n", "b\n"]
      [Change.delete 0 2, Change.replace 1 2 ["r\n"]] ∧
    ((∃ msg, saveChanges ["a\n", "b\n"]
        [Change.delete 0 2, Change.replace 1 2 ["r\n"]] = .error msg) ∧
      fileAfter ["a\n", "b\n"]
        [Change.delete 0 2, Change.replace 1 2 ["r\n"]] = ["a\n", "b\n"]) :=
  ⟨by decide,
   claim2_validation_blocks_write ["a\n", "b\n"]
     [Change.delete 0 2, Change.replace 1 2 ["r\n"]] (by decide)⟩

end Claims

end Beanbot
